import Mathlib

/-!
# Verification of the mac-clip clipboard history manager

Shallow embedding of the core state machine of `src/main.rs` and the CLI
dispatch of `main`/`daemon.rs`, with theorems checking the specification's
claims about it.

Conventions of the embedding:
* `VecDeque<ClipboardEntry>` becomes `List ClipboardEntry`, front (newest,
  index 0) first; `push_front` is `::`, `pop_back` is `dropLast`.
* Machine integers (`u64` timestamps, `usize` indices/lengths) become `Nat`:
  none of the modelled operations can overflow their Rust widths in any
  scenario the claims mention, and no wrap-around arithmetic is performed.
* Side effects (file writes, clipboard writes, keystroke injection, iced
  `Command`s) are reified as an ordered `List Effect` returned next to the
  new state; the external results that the code branches on (clipboard
  `set_text` success) are passed in as parameters.
* JSON (de)serialization is external (`serde_json`), so `loadEntries` is
  parameterized by an arbitrary parse function `String → Option (List
  ClipboardEntry)`; `from_str(..).unwrap_or_else(|_| VecDeque::new())`
  becomes `Option.getD`.  The `fs::read_to_string` call that precedes it is
  fallible (it fails on non-UTF-8 bytes) and its `.expect(..)` panic is
  modelled as `Except.error`.
-/

/-- `MAX_HISTORY_SIZE` from `src/main.rs` line 25. -/
def MAX_HISTORY_SIZE : Nat := 50

/-- `struct ClipboardEntry { content: String, timestamp: u64 }`. -/
structure ClipboardEntry where
  content : String
  timestamp : Nat
deriving DecidableEq

/-- `enum Event { ClipboardChanged(String), HotkeyTriggered }`. -/
inductive Event where
  | clipboardChanged (content : String)
  | hotkeyTriggered
deriving DecidableEq

/-- `enum Message` of `src/main.rs` (the iced message type). -/
inductive Message where
  | clipboardUpdated (content : String)
  | selectEntry (index : Nat)
  | hotkeyPressed
  | eventReceived (event : Event)
  | toggleWindow
deriving DecidableEq

/-- The enigo keys used by the paste injection (`Key::Meta`, `Key::Layout('v')`). -/
inductive EKey where
  | meta
  | layout (c : Char)
deriving DecidableEq

/-- iced window modes used by `ToggleWindow` (`Mode::Hidden`, `Mode::Windowed`). -/
inductive WindowMode where
  | windowed
  | hidden
deriving DecidableEq

/-- The side effects / iced commands `update` can emit, in emission order:
file persistence (`fs::write` of the serialized entries), external clipboard
write (`set_text`), keystroke injection, re-dispatch of a message
(`Command::perform(async {}, |_| msg)`), and window-mode commands. -/
inductive Effect where
  | saveHistory (entries : List ClipboardEntry)
  | setClipboardText (content : String)
  | keyDown (k : EKey)
  | keyClick (k : EKey)
  | keyUp (k : EKey)
  | dispatch (m : Message)
  | changeMode (m : WindowMode)
  | gainFocus
deriving DecidableEq

/-- The mutable application state of `struct MacClip` (the external handles
`clipboard`, `storage_path`, `hotkey_manager`, `event_rx`, `tx` carry no
state the claims mention and are left out). -/
structure MacClip where
  entries : List ClipboardEntry
  last_clipboard_content : String
  window_visible : Bool
deriving DecidableEq

/-- Rust `char::is_whitespace`: the Unicode `White_Space` property. -/
def isRustWhitespace (c : Char) : Bool :=
  (0x09 ≤ c.val && c.val ≤ 0x0D) || c.val = 0x20 || c.val = 0x85 || c.val = 0xA0 ||
  c.val = 0x1680 || (0x2000 ≤ c.val && c.val ≤ 0x200A) || c.val = 0x2028 ||
  c.val = 0x2029 || c.val = 0x202F || c.val = 0x205F || c.val = 0x3000

/-- Rust `content.trim().is_empty()`: trimming Unicode whitespace from both
ends leaves the empty string exactly when every character is whitespace. -/
def trimIsEmpty (s : String) : Bool :=
  s.data.all isRustWhitespace

/-- `MacClip::update` (`src/main.rs` lines 173–261), as a pure function from
the incoming message and the pre-state to the post-state and the ordered
list of emitted effects.  `now` is the `SystemTime::now()` timestamp taken
in the `ClipboardChanged` arm; `setTextOk` is the result of the external
`clipboard.set_text` call in the `SelectEntry` arm (on `Err` the code logs
and skips the keystroke injection and the `last_clipboard_content` update).
`serde_json::to_string` of the entries always succeeds for this data type,
so the save effect is always emitted on insertion; a failing `fs::write` is
logged and changes nothing, so the effect records the attempt. -/
def update (now : Nat) (setTextOk : Bool) (s : MacClip) (m : Message) :
    MacClip × List Effect :=
  match m with
  | .eventReceived (.clipboardChanged content) =>
      if trimIsEmpty content then
        (s, [])
      else if s.entries.head?.map ClipboardEntry.content ≠ some content then
        let entry : ClipboardEntry := ⟨content, now⟩
        let pushed := entry :: s.entries
        let entries' := if pushed.length > MAX_HISTORY_SIZE then pushed.dropLast else pushed
        ({ s with entries := entries' }, [.saveHistory entries'])
      else
        (s, [])
  | .eventReceived .hotkeyTriggered =>
      ({ s with window_visible := !s.window_visible }, [.dispatch .toggleWindow])
  | .clipboardUpdated content =>
      (s, [.setClipboardText content])
  | .selectEntry index =>
      match s.entries[index]? with
      | some entry =>
          if setTextOk then
            ({ s with window_visible := false, last_clipboard_content := entry.content },
             [.setClipboardText entry.content, .keyDown .meta, .keyClick (.layout 'v'),
              .keyUp .meta, .dispatch .toggleWindow])
          else
            ({ s with window_visible := false },
             [.setClipboardText entry.content, .dispatch .toggleWindow])
      | none => (s, [.dispatch .toggleWindow])
  | .hotkeyPressed =>
      ({ s with window_visible := !s.window_visible }, [.dispatch .toggleWindow])
  | .toggleWindow =>
      if !s.window_visible then
        (s, [.changeMode .hidden])
      else
        (s, [.changeMode .windowed, .gainFocus])

/-- The history-store mutation alone: the state reached by processing one
`Event::ClipboardChanged(content)` with timestamp `now` (`setTextOk` is
irrelevant in that arm). -/
def recordContent (now : Nat) (s : MacClip) (content : String) : MacClip :=
  (update now true s (.eventReceived (.clipboardChanged content))).1

/-- Process a whole sequence of clipboard-change events, each with its
timestamp, in order. -/
def recordAll (s : MacClip) (cs : List (Nat × String)) : MacClip :=
  cs.foldl (fun st p => recordContent p.1 st p.2) s

/-- The state `MacClip::new` builds when no usable history file exists:
empty entries, `window_visible: false`, and (for a clipboard whose initial
read yields nothing) `last_clipboard_content` defaulted to `""`. -/
def initState : MacClip :=
  { entries := [], last_clipboard_content := "", window_visible := false }

/-- The load logic of `MacClip::new` (`src/main.rs` lines 82–89).
`file` is the storage file: `none` when `storage_path.exists()` is false
(the history starts empty); `some r` when it exists, where `r` is the result
of `fs::read_to_string(&storage_path)` — `Except.ok` with the decoded text,
or `Except.error` with the I/O error's message (in particular `InvalidData`
when the file's bytes are not valid UTF-8).  The
`.expect("Failed to read history file")` on that result panics on `Err`,
modelled as `Except.error` carrying the panic message; on `Ok` the external
parser (`serde_json`, abstracted as `parse`) is applied and
`from_str(..).unwrap_or_else(|_| VecDeque::new())` is `Option.getD`. -/
def loadEntries (parse : String → Option (List ClipboardEntry))
    (file : Option (Except String String)) : Except String (List ClipboardEntry) :=
  match file with
  | none => .ok []
  | some (.error e) => .error ("Failed to read history file: " ++ e)
  | some (.ok data) => .ok ((parse data).getD [])

-- ### Helper lemmas about `recordContent`

/-- One recorded content keeps the length bound `≤ MAX_HISTORY_SIZE`. -/
theorem recordContent_length_le (now : Nat) (s : MacClip) (c : String)
    (h : s.entries.length ≤ MAX_HISTORY_SIZE) :
    (recordContent now s c).entries.length ≤ MAX_HISTORY_SIZE := by
  unfold recordContent update
  dsimp only
  split
  · exact h
  · split
    · dsimp only
      split
      · simpa using h
      · next hle =>
        simp only [List.length_cons, gt_iff_lt, not_lt] at hle ⊢
        simpa using hle
    · exact h

/-- Recording never changes the length of an already over-full history. -/
theorem recordContent_length_of_overfull (now : Nat) (s : MacClip) (c : String)
    (h : MAX_HISTORY_SIZE < s.entries.length) :
    (recordContent now s c).entries.length = s.entries.length := by
  unfold recordContent update
  dsimp only
  split
  · rfl
  · split
    · dsimp only
      rw [if_pos (by simp; omega)]
      simp
    · rfl

-- ### Concrete states used by witnesses

/-- A history holding exactly `MAX_HISTORY_SIZE` distinct entries. -/
def fullState : MacClip :=
  { entries := (List.range MAX_HISTORY_SIZE).map (fun i => ⟨toString i, i⟩),
    last_clipboard_content := "", window_visible := false }

/-- A history holding more than `MAX_HISTORY_SIZE` entries, as a persisted
file with 51 entries would produce at startup. -/
def overfullState : MacClip :=
  { entries := (List.range 51).map (fun i => ⟨toString i, 0⟩),
    last_clipboard_content := "", window_visible := false }

/-- A state with one stored entry and the window shown. -/
def oneEntryState : MacClip :=
  { entries := [⟨"hello", 1⟩], last_clipboard_content := "", window_visible := true }

-- ### C2

/-- C2: starting from any state within the bound, every sequence of recorded
contents keeps `entries.length ≤ MAX_HISTORY_SIZE`; and when an insertion
happens at length exactly `MAX_HISTORY_SIZE`, the tail entry is evicted and
the new entry becomes index 0. -/
theorem history_length_bounded_and_tail_evicted :
    (∀ (s : MacClip) (cs : List (Nat × String)),
        s.entries.length ≤ MAX_HISTORY_SIZE →
        (recordAll s cs).entries.length ≤ MAX_HISTORY_SIZE) ∧
    (∀ (now : Nat) (s : MacClip) (c : String),
        s.entries.length = MAX_HISTORY_SIZE →
        trimIsEmpty c = false →
        s.entries.head?.map ClipboardEntry.content ≠ some c →
        (recordContent now s c).entries = ⟨c, now⟩ :: s.entries.dropLast) := by
  constructor
  · intro s cs
    induction cs generalizing s with
    | nil => exact fun h => h
    | cons p ps ih =>
      intro h
      exact ih _ (recordContent_length_le p.1 s p.2 h)
  · intro now s c hlen hws hdup
    unfold recordContent update
    dsimp only
    rw [if_neg (by simp [hws]), if_pos hdup]
    dsimp only
    rw [if_pos (by simp [hlen])]
    have hne : s.entries ≠ [] := by
      intro h0
      rw [h0] at hlen
      simp [MAX_HISTORY_SIZE] at hlen
    simp [List.dropLast_cons_of_ne_nil hne]

/-- Witness for C2 at concrete inputs. -/
theorem history_length_bounded_and_tail_evicted_witness :
    (recordAll initState [(1, "a"), (2, "b")]).entries.length ≤ MAX_HISTORY_SIZE ∧
    (recordContent 7 fullState "x").entries = ⟨"x", 7⟩ :: fullState.entries.dropLast :=
  ⟨history_length_bounded_and_tail_evicted.1 initState [(1, "a"), (2, "b")] (by decide),
   history_length_bounded_and_tail_evicted.2 7 fullState "x" (by decide) (by decide)
     (by decide)⟩

-- ### C3

/-- C3: recording content equal to the current newest entry's content leaves
the state unchanged and emits nothing, while older non-adjacent duplicates
are re-inserted: from empty, `record a; record b; record a` yields contents
`[a, b, a]` (newest first). -/
theorem adjacent_duplicate_suppressed :
    (∀ (now : Nat) (ok : Bool) (s : MacClip) (c : String),
        s.entries.head?.map ClipboardEntry.content = some c →
        update now ok s (.eventReceived (.clipboardChanged c)) = (s, [])) ∧
    (recordAll initState [(1, "a"), (2, "b"), (3, "a")]).entries.map
        ClipboardEntry.content = ["a", "b", "a"] := by
  constructor
  · intro now ok s c h
    unfold update
    dsimp only
    split
    · rfl
    · rw [if_neg (by simp [h])]
  · rfl

/-- Witness for C3's hypothesis: an adjacent duplicate is dropped. -/
theorem adjacent_duplicate_suppressed_witness :
    update 5 true oneEntryState (.eventReceived (.clipboardChanged "hello"))
      = (oneEntryState, []) :=
  adjacent_duplicate_suppressed.1 5 true oneEntryState "hello" (by decide)

-- ### C4

/-- C4: a clipboard-change event whose content trims to the empty string
(empty or whitespace-only) leaves every state unchanged and emits nothing. -/
theorem whitespace_record_noop :
    ∀ (now : Nat) (ok : Bool) (s : MacClip) (c : String),
      trimIsEmpty c = true →
      update now ok s (.eventReceived (.clipboardChanged c)) = (s, []) := by
  intro now ok s c h
  unfold update
  dsimp only
  rw [if_pos h]

/-- Witness for C4 on the empty and a whitespace-only string. -/
theorem whitespace_record_noop_witness :
    update 5 true initState (.eventReceived (.clipboardChanged "")) = (initState, []) ∧
    update 6 true fullState (.eventReceived (.clipboardChanged " \t\n ")) = (fullState, []) :=
  ⟨whitespace_record_noop 5 true initState "" (by decide),
   whitespace_record_noop 6 true fullState " \t\n " (by decide)⟩

-- ### C5 (corrected)

/-- C5 counterexample: a history file whose bytes are not valid UTF-8 makes
`fs::read_to_string` return `Err(InvalidData)`, and the
`.expect("Failed to read history file")` at `src/main.rs` line 84 panics —
the load does not return an empty history, it crashes startup. -/
theorem load_invalid_bytes_panics :
    loadEntries (fun _ => none) (some (.error "stream did not contain valid UTF-8"))
        = .error "Failed to read history file: stream did not contain valid UTF-8" ∧
    loadEntries (fun _ => none) (some (.error "stream did not contain valid UTF-8"))
        ≠ .ok [] := by
  exact ⟨rfl, by simp [loadEntries]⟩

/-- C5 amended: loading from a nonexistent path returns an empty history,
and loading a file that reads as text but whose content the parser rejects
returns an empty history without raising; but a file whose bytes cannot be
read as UTF-8 text fails the read and the `expect` panics, crashing startup
instead of returning an empty history. -/
theorem load_missing_or_unparsable_is_empty :
    (∀ parse, loadEntries parse none = .ok []) ∧
    (∀ parse data, parse data = none → loadEntries parse (some (.ok data)) = .ok []) ∧
    (∀ parse err, loadEntries parse (some (.error err))
        = .error ("Failed to read history file: " ++ err)) := by
  refine ⟨fun parse => rfl, ?_, fun parse err => rfl⟩
  intro parse data h
  simp [loadEntries, h]

/-- Witness for the amended C5 with a parser that rejects everything. -/
theorem load_missing_or_unparsable_is_empty_witness :
    loadEntries (fun _ => none) none = .ok [] ∧
    loadEntries (fun _ => none) (some (.ok "not json at all")) = .ok [] ∧
    loadEntries (fun _ => none) (some (.error "bad bytes"))
        = .error ("Failed to read history file: " ++ "bad bytes") :=
  ⟨load_missing_or_unparsable_is_empty.1 (fun _ => none),
   load_missing_or_unparsable_is_empty.2.1 (fun _ => none) "not json at all" rfl,
   load_missing_or_unparsable_is_empty.2.2 (fun _ => none) "bad bytes"⟩

-- ### C6

/-- C6: selecting a valid index (with the external clipboard write
succeeding) emits, in order, the clipboard write of that entry's content,
then the paste keystroke sequence (meta down, click `v`, meta up), then the
`ToggleWindow` dispatch; the post-state keeps `entries` unchanged and has
`window_visible = false`, and processing the dispatched `ToggleWindow` in
that post-state emits the hide-window command. -/
theorem select_valid_pastes_and_hides :
    ∀ (now : Nat) (s : MacClip) (i : Nat) (e : ClipboardEntry),
      s.entries[i]? = some e →
      update now true s (.selectEntry i) =
        ({ s with window_visible := false, last_clipboard_content := e.content },
         [.setClipboardText e.content, .keyDown .meta, .keyClick (.layout 'v'),
          .keyUp .meta, .dispatch .toggleWindow]) ∧
      update now true
          ({ s with window_visible := false, last_clipboard_content := e.content })
          .toggleWindow
        = ({ s with window_visible := false, last_clipboard_content := e.content },
           [.changeMode .hidden]) := by
  intro now s i e h
  constructor
  · simp [update, h]
  · simp [update]

/-- Witness for C6 at a one-entry state, index 0. -/
theorem select_valid_pastes_and_hides_witness :
    update 5 true oneEntryState (.selectEntry 0) =
      ({ oneEntryState with window_visible := false, last_clipboard_content := "hello" },
       [.setClipboardText "hello", .keyDown .meta, .keyClick (.layout 'v'),
        .keyUp .meta, .dispatch .toggleWindow]) :=
  (select_valid_pastes_and_hides 5 oneEntryState 0 ⟨"hello", 1⟩ (by decide)).1

-- ### C7 (corrected)

/-- C7 counterexample: selecting index 0 of an empty history leaves the
state unchanged and performs no clipboard write, but the `SelectEntry` arm
still emits a command — the unconditional `ToggleWindow` dispatch of
`src/main.rs` line 242 — so "emits no command" is false. -/
theorem select_out_of_range_emits_toggle :
    (update 0 true initState (.selectEntry 0)).1 = initState ∧
    (update 0 true initState (.selectEntry 0)).2 = [.dispatch .toggleWindow] ∧
    (update 0 true initState (.selectEntry 0)).2 ≠ [] := by
  exact ⟨rfl, rfl, by decide⟩

/-- C7 amended: selecting an out-of-range index changes no state (history,
visibility, last-known clipboard content) and performs no clipboard write or
keystroke injection, but always emits the `ToggleWindow` dispatch, which
re-asserts the window mode of the unchanged visibility. -/
theorem select_out_of_range_state_noop :
    ∀ (now : Nat) (ok : Bool) (s : MacClip) (i : Nat),
      s.entries[i]? = none →
      update now ok s (.selectEntry i) = (s, [.dispatch .toggleWindow]) := by
  intro now ok s i h
  simp [update, h]

/-- Witness for the amended C7 at an empty history. -/
theorem select_out_of_range_state_noop_witness :
    update 3 true initState (.selectEntry 7) = (initState, [.dispatch .toggleWindow]) :=
  select_out_of_range_state_noop 3 true initState 7 (by decide)

-- ### C8

/-- C8: each `HotkeyTriggered` event flips `window_visible` exactly once,
whatever the prior state, leaves the history unchanged, and two consecutive
hotkey events restore the original visibility. -/
theorem hotkey_toggles_visibility_once :
    ∀ (now : Nat) (ok : Bool) (s : MacClip),
      ((update now ok s (.eventReceived .hotkeyTriggered)).1).window_visible
          = !s.window_visible ∧
      ((update now ok s (.eventReceived .hotkeyTriggered)).1).entries = s.entries ∧
      ((update now ok ((update now ok s (.eventReceived .hotkeyTriggered)).1)
          (.eventReceived .hotkeyTriggered)).1).window_visible = s.window_visible := by
  intro now ok s
  refine ⟨rfl, rfl, ?_⟩
  simp [update]

-- ### C10

/-- C10: startup load installs whatever the parser returns, with no
truncation to `MAX_HISTORY_SIZE`; and on a history already longer than
`MAX_HISTORY_SIZE`, one recorded content leaves the length unchanged (one
push, at most one pop), so a single record does not restore the bound. -/
theorem load_unbounded_record_preserves_overfull :
    (∀ parse data l, parse data = some l → loadEntries parse (some (.ok data)) = .ok l) ∧
    (∀ (now : Nat) (s : MacClip) (c : String),
        MAX_HISTORY_SIZE < s.entries.length →
        (recordContent now s c).entries.length = s.entries.length) := by
  constructor
  · intro parse data l h
    simp [loadEntries, h]
  · intro now s c h
    exact recordContent_length_of_overfull now s c h

/-- Witness for C10: a 51-entry parsed file is installed whole, and a record
on it keeps length 51. -/
theorem load_unbounded_record_preserves_overfull_witness :
    loadEntries (fun _ => some overfullState.entries) (some (.ok "fifty-one entries"))
        = .ok overfullState.entries ∧
    (recordContent 9 overfullState "x").entries.length
        = overfullState.entries.length :=
  ⟨load_unbounded_record_preserves_overfull.1 (fun _ => some overfullState.entries)
      "fifty-one entries" overfullState.entries rfl,
   load_unbounded_record_preserves_overfull.2 9 overfullState "x" (by decide)⟩

-- ### C9 (corrected) — `main` and the `--daemon` flag

/-- What a run of `main` amounts to for the CLI claim: either the process
prints a message and exits with status 0 without starting the interactive
application, or it goes on to start the interactive iced application
(`MacClip::run`), possibly after printing a diagnostic to stderr. -/
inductive MainOutcome where
  | exitOk (stdoutMsg : String)
  | runApp (stderrDiag : Option String)
deriving DecidableEq

/-- Whether the outcome starts the interactive application. -/
def launchesInteractiveApp : MainOutcome → Bool
  | .runApp _ => true
  | .exitOk _ => false

/-- `main` (`src/main.rs` lines 346–368): `hasDaemonFlag` is
`env::args().any(|arg| arg == "--daemon")`; `setupResult` is the outcome of
the external-I/O `daemon::setup_daemon()` (`src/daemon.rs`).  On `Err` the
code prints the diagnostic to stderr and falls through to `MacClip::run`
(there is no early return in the error branch); on `Ok` it prints the
completion message and returns `Ok(())`, i.e. exit status 0. -/
def mainModel (hasDaemonFlag : Bool) (setupResult : Except String Unit) : MainOutcome :=
  if hasDaemonFlag then
    match setupResult with
    | .error e => .runApp (some ("Failed to setup daemon: " ++ e))
    | .ok _ => .exitOk
        "Mac-Clip daemon setup complete. The application will now start automatically when you log in."
  else
    .runApp none

/-- C9 counterexample: with the `--daemon` flag present and a failing setup,
the program does not exit with a nonzero status — it prints the diagnostic
and then launches the interactive application. -/
theorem daemon_flag_failure_launches_app :
    mainModel true (.error "permission denied")
        = .runApp (some "Failed to setup daemon: permission denied") ∧
    launchesInteractiveApp (mainModel true (.error "permission denied")) = true :=
  ⟨rfl, rfl⟩

/-- C9 amended: with the flag present, a successful setup prints the
completion message and exits 0 without launching the interactive
application; a failed setup prints a diagnostic to stderr and then launches
the interactive application instead of exiting with a nonzero status. -/
theorem daemon_flag_behavior :
    mainModel true (.ok ())
        = .exitOk
          "Mac-Clip daemon setup complete. The application will now start automatically when you log in."
      ∧ launchesInteractiveApp (mainModel true (.ok ())) = false
      ∧ (∀ e, mainModel true (.error e)
            = .runApp (some ("Failed to setup daemon: " ++ e))) := by
  exact ⟨rfl, rfl, fun e => rfl⟩

-- ### C1 (corrected) — the event pipeline

/-- The value held by the tokio `watch` channel after the relay thread
(`src/main.rs` lines 107–116) has forwarded the first `k` events of the FIFO
stream `sent` out of the unbounded mpsc channel: the channel starts at
`None` (`watch::channel(None)`) and each forward overwrites the previous
value with `Some(event)`. -/
def watchValue (sent : List Event) (k : Nat) : Option Event :=
  match k with
  | 0 => none
  | j + 1 => sent[j]?

/-- One wake-up of the subscription loop (`MacClip::subscription`,
`src/main.rs` lines 328–343), which runs `rx.changed().await` and then,
separately, `rx.borrow().clone()`: `seenV` is the channel version current
when `changed()` completed — the version `changed()` marks as seen — and
`readV` is the version current when `borrow()` ran.  The relay thread may
forward more events between the two, so `readV` can be strictly newer than
`seenV`; the loop does not use `borrow_and_update`, so only `seenV` counts
as seen. -/
structure WakeUp where
  seenV : Nat
  readV : Nat
deriving DecidableEq

/-- Whether a sequence of wake-ups is an interleaving the pipeline can
produce, given the previous seen version and the version current at the
previous `borrow()`: each `changed()` completes only at a version strictly
newer than the last seen one; `borrow()` runs after its `changed()` and
before the next wake-up's `borrow()`, and the channel's version counter
only grows with time, so `seenV ≤ readV` and reads are non-decreasing; no
version can exceed the number of events the producers sent. -/
def validFrom (sent : List Event) (seen lastRead : Nat) : List WakeUp → Bool
  | [] => true
  | w :: ws =>
      decide (seen < w.seenV) && decide (lastRead ≤ w.readV) &&
      decide (w.seenV ≤ w.readV) && decide (w.readV ≤ sent.length) &&
      validFrom sent w.seenV w.readV ws

/-- A full schedule starts from the initial `watch::channel(None)` version 0
with nothing yet read. -/
def ValidSchedule (sent : List Event) (ws : List WakeUp) : Prop :=
  validFrom sent 0 0 ws = true

/-- The events the Application Core receives (as `Message::EventReceived`,
applied one at a time by the iced runtime) under a given schedule: each
wake-up delivers the value `borrow()` sees, i.e. the latest value the relay
has written to the `watch` channel at `readV`. -/
def deliveredEvents (sent : List Event) (ws : List WakeUp) : List Event :=
  ws.filterMap (fun w => watchValue sent w.readV)

/-- C1 counterexample: with two events produced in FIFO order, a consumer
that wakes up only after both are relayed receives only the second (the
first is lost); and a relay send that lands between `changed()` completing
and `borrow()` running lets the next `changed()` fire again on the same
value, so one sent event is applied twice.  Either run alone falsifies
exactly-once FIFO delivery. -/
theorem event_delivery_drops_and_duplicates :
    (ValidSchedule [Event.clipboardChanged "a", Event.hotkeyTriggered] [⟨2, 2⟩] ∧
     deliveredEvents [Event.clipboardChanged "a", Event.hotkeyTriggered] [⟨2, 2⟩]
       ≠ [Event.clipboardChanged "a", Event.hotkeyTriggered]) ∧
    (ValidSchedule [Event.clipboardChanged "a", Event.hotkeyTriggered]
        [⟨1, 2⟩, ⟨2, 2⟩] ∧
     deliveredEvents [Event.clipboardChanged "a", Event.hotkeyTriggered]
        [⟨1, 2⟩, ⟨2, 2⟩]
       = [Event.hotkeyTriggered, Event.hotkeyTriggered]) := by
  exact ⟨⟨rfl, by decide⟩, ⟨rfl, by decide⟩⟩

/-- Picking elements of `l` at strictly increasing indices (each translated
by `d + 1` and in range) yields a sublist of `l`. -/
theorem filterMap_strict_indices_sublist {α : Type} :
    ∀ (ks : List Nat) (d : Nat) (l : List α),
      ks.Pairwise (· < ·) →
      (∀ k ∈ ks, d < k ∧ k ≤ d + l.length) →
      List.Sublist (ks.filterMap (fun k => l[k - d - 1]?)) l := by
  intro ks
  induction ks with
  | nil => intro d l _ _; simp
  | cons k ks ih =>
    intro d l hpair hmem
    obtain ⟨hk, hks⟩ := List.pairwise_cons.mp hpair
    obtain ⟨hdk, hkl⟩ := hmem k (List.mem_cons_self k ks)
    have hj : k - d - 1 < l.length := by omega
    have hsome : l[k - d - 1]? = some (l.get ⟨k - d - 1, hj⟩) := by
      simp [List.getElem?_eq_getElem hj]
    have htail : ks.filterMap (fun x => l[x - d - 1]?)
        = ks.filterMap (fun x => (l.drop (k - d))[x - k - 1]?) := by
      apply List.filterMap_congr
      intro x hx
      have h1 : k < x := hk x hx
      have h2 := (hmem x (List.mem_cons_of_mem _ hx)).2
      rw [List.getElem?_drop]
      congr 1
      omega
    have hdrop : List.Sublist
        (ks.filterMap (fun x => (l.drop (k - d))[x - k - 1]?)) (l.drop (k - d)) := by
      apply ih k (l.drop (k - d)) hks
      intro x hx
      refine ⟨hk x hx, ?_⟩
      have h2 := (hmem x (List.mem_cons_of_mem _ hx)).2
      rw [List.length_drop]
      omega
    have hstep : l.drop (k - d - 1) = l.get ⟨k - d - 1, hj⟩ :: l.drop (k - d) := by
      rw [List.drop_eq_getElem_cons hj]
      congr 2
      omega
    have hfin : List.Sublist (l.get ⟨k - d - 1, hj⟩ :: l.drop (k - d)) l := by
      rw [← hstep]
      exact List.drop_sublist _ _
    have hhead : (k :: ks).filterMap (fun x => l[x - d - 1]?)
        = l.get ⟨k - d - 1, hj⟩ :: ks.filterMap (fun x => l[x - d - 1]?) := by
      simp [List.filterMap_cons, hsome]
    rw [hhead, htail]
    exact List.Sublist.trans (List.Sublist.cons₂ _ hdrop) hfin

/-- In a valid schedule every read version is at least 1 (some event has
been relayed) and at most the number of sent events. -/
theorem validFrom_readV_bounds :
    ∀ (sent : List Event) (ws : List WakeUp) (seen lastRead : Nat),
      validFrom sent seen lastRead ws = true →
      ∀ w ∈ ws, 1 ≤ w.readV ∧ w.readV ≤ sent.length := by
  intro sent ws
  induction ws with
  | nil =>
    intro seen lastRead _ w hw
    simp at hw
  | cons w ws ih =>
    intro seen lastRead h x hx
    simp only [validFrom, Bool.and_eq_true, decide_eq_true_eq] at h
    obtain ⟨⟨⟨⟨h1, h2⟩, h3⟩, h4⟩, h5⟩ := h
    rcases List.mem_cons.mp hx with rfl | hx'
    · exact ⟨by omega, h4⟩
    · exact ih w.seenV w.readV h5 x hx'

/-- C1 amended: for every valid schedule, everything the Application Core
receives is an event some producer sent (nothing is invented), and the
wake-ups that read a strictly newer version than any earlier wake-up —
`destutter (· < ·)` of the non-decreasing read-version trace — deliver a
sublist of the sent FIFO stream: sent order is preserved, with no
reordering.  Delivery is not exactly-once: as the counterexample shows, an
event is lost whenever a newer one overwrites the `watch` channel before
the consumer reads it, and the latest event is delivered again whenever a
send lands between `changed()` and `borrow()`. -/
theorem delivered_events_from_sent_in_order :
    ∀ (sent : List Event) (ws : List WakeUp),
      ValidSchedule sent ws →
      (∀ e ∈ deliveredEvents sent ws, e ∈ sent) ∧
      List.Sublist
        (((ws.map WakeUp.readV).destutter (· < ·)).filterMap (watchValue sent))
        sent := by
  intro sent ws hv
  have hbounds := validFrom_readV_bounds sent ws 0 0 hv
  constructor
  · intro e he
    simp only [deliveredEvents, List.mem_filterMap] at he
    obtain ⟨w, hw, heq⟩ := he
    obtain ⟨h1, h2⟩ := hbounds w hw
    obtain ⟨j, hj⟩ : ∃ j, w.readV = j + 1 := ⟨w.readV - 1, by omega⟩
    rw [hj] at heq
    simp only [watchValue] at heq
    obtain ⟨hlt, rfl⟩ := List.getElem?_eq_some.mp heq
    exact List.getElem_mem hlt
  · have hchain : ((ws.map WakeUp.readV).destutter (· < ·)).Chain' (· < ·) :=
      List.destutter_is_chain' _ _
    have hsub : ∀ k ∈ (ws.map WakeUp.readV).destutter (· < ·),
        1 ≤ k ∧ k ≤ sent.length := by
      intro k hk
      have hmem : k ∈ ws.map WakeUp.readV :=
        (List.destutter_sublist _ _).subset hk
      obtain ⟨w, hw, rfl⟩ := List.mem_map.mp hmem
      exact hbounds w hw
    have hpair : ((ws.map WakeUp.readV).destutter (· < ·)).Pairwise (· < ·) :=
      List.chain'_iff_pairwise.mp hchain
    have heq : ((ws.map WakeUp.readV).destutter (· < ·)).filterMap (watchValue sent)
        = ((ws.map WakeUp.readV).destutter (· < ·)).filterMap
            (fun k => sent[k - 0 - 1]?) := by
      apply List.filterMap_congr
      intro k hk
      obtain ⟨j, rfl⟩ : ∃ j, k = j + 1 :=
        ⟨k - 1, by have := (hsub k hk).1; omega⟩
      simp [watchValue]
    rw [heq]
    refine filterMap_strict_indices_sublist _ 0 sent hpair ?_
    intro k hk
    exact ⟨(hsub k hk).1, by simpa using (hsub k hk).2⟩

/-- Witness for the amended C1: under the schedule that wakes up after each
relay and reads immediately, both delivered events are sent events, and the
strictly-advancing wake-ups deliver the full sent stream as a sublist. -/
theorem delivered_events_from_sent_in_order_witness :
    Event.hotkeyTriggered ∈ [Event.clipboardChanged "a", Event.hotkeyTriggered] ∧
    List.Sublist
      ((([⟨1, 1⟩, ⟨2, 2⟩] : List WakeUp).map WakeUp.readV |>.destutter
          (· < ·)).filterMap
        (watchValue [Event.clipboardChanged "a", Event.hotkeyTriggered]))
      [Event.clipboardChanged "a", Event.hotkeyTriggered] :=
  ⟨(delivered_events_from_sent_in_order
        [Event.clipboardChanged "a", Event.hotkeyTriggered] [⟨1, 1⟩, ⟨2, 2⟩]
        rfl).1
      Event.hotkeyTriggered (by decide),
   (delivered_events_from_sent_in_order
        [Event.clipboardChanged "a", Event.hotkeyTriggered] [⟨1, 1⟩, ⟨2, 2⟩]
        rfl).2⟩
